import Mathlib

/-!
Shallow embedding of the `webmafia/lru` Go package (files `lru.go` and
`threadsafe.go`) and verification of its natural-language specification.

The Go type `lru[K comparable, V any]` holds three position-aligned slices
`keys`, `vals`, `lastUse`, a `uint64` logical clock `tick`, and an optional
eviction callback. We model the slices as Lean lists, `uint64` values as `Nat`
with explicit reduction modulo `2 ^ 64` exactly where Go arithmetic can wrap
or where Go performs an `int -> uint64` conversion, and the eviction callback
as an explicit list of `(key, value)` events returned by each operation, in
the order the Go code would invoke the callback. The `capacity` field models
`cap(c.keys)`: for caches constructed with a positive capacity the Go code
never appends beyond the reserved capacity, so the backing capacity is exactly
the value passed to `New`/`Resize`.
-/

set_option autoImplicit false
set_option linter.unusedSectionVars false

/-- The modulus of Go's `uint64` arithmetic. -/
def u64Size : Nat := 2 ^ 64

/-- State of the Go struct `lru[K, V]` (file `lru.go`): parallel slices
`keys`, `vals`, `lastUse`, the logical clock `tick`, and the backing
capacity `cap(c.keys)`. -/
structure Lru (K V : Type) where
  keys : List K
  vals : List V
  lastUse : List Nat
  tick : Nat
  capacity : Nat
  deriving DecidableEq

variable {K V E : Type} [DecidableEq K] [Inhabited K] [Inhabited V]

/-- Go `New[K, V](capacity, ...)`: empty slices with the given backing
capacity, clock at zero. -/
def Lru.New (K V : Type) (capacity : Nat) : Lru K V :=
  { keys := [], vals := [], lastUse := [], tick := 0, capacity := capacity }

/-- Go `c.Len()`: `len(c.keys)`. -/
def Lru.Len (c : Lru K V) : Nat := c.keys.length

/-- Go `c.Cap()`: the source returns `len(c.keys)` (not the configured
capacity). -/
def Lru.Cap (c : Lru K V) : Nat := c.keys.length

/-- Go `c.oldestTick()`: `c.tick - uint64(c.Len())` in wrapping `uint64`
arithmetic. -/
def Lru.oldestTick (c : Lru K V) : Nat :=
  (c.tick + u64Size - c.keys.length % u64Size) % u64Size

/-- First index of `t` in a list, mirroring the scanning loop of Go
`c.find(tick)`. -/
def findIn (t : Nat) : List Nat → Option Nat
  | [] => none
  | x :: xs => if x = t then some 0 else (findIn t xs).map (· + 1)

/-- Go `c.find(tick)`: linear scan of `c.lastUse` for the given tick. -/
def Lru.find (c : Lru K V) (t : Nat) : Option Nat := findIn t c.lastUse

/-- First index of `key` in a list of keys, mirroring the scanning loops of
Go `Get` / `Replace` / `Remove` over `c.keys`. -/
def idxOf? (key : K) : List K → Option Nat
  | [] => none
  | x :: xs => if x = key then some 0 else (idxOf? key xs).map (· + 1)

/-- Go `c.repair()`: renumber every slot's recency to its slot index
(`c.lastUse[i] = uint64(i)`) and set `c.tick = uint64(c.Len())`. -/
def Lru.repair (c : Lru K V) : Lru K V :=
  { c with
    lastUse := (List.range c.lastUse.length).map (fun i => i % u64Size),
    tick := c.keys.length % u64Size }

/-- Go `c.preventTickOverflow()`: only acts when `c.tick == math.MaxUint64`.
It then either repairs (as soon as the scan meets a tick below the window
base, in which case `repair` overwrites every slot, so the partial in-place
additions made before the scan bailed out are irrelevant) or adds the window
base to every recency value with wrapping `uint64` addition and resets the
clock to `uint64(c.Len())`. -/
def Lru.preventTickOverflow (c : Lru K V) : Lru K V :=
  if c.tick ≠ u64Size - 1 then c
  else
    let t := c.oldestTick
    if c.lastUse.any (fun x => decide (x < t)) then c.repair
    else
      { c with
        lastUse := c.lastUse.map (fun x => (x + t) % u64Size),
        tick := c.keys.length % u64Size }

/-- Go `c.nextTick()`: run `preventTickOverflow`, return the clock value and
increment it (wrapping). -/
def Lru.nextTick (c : Lru K V) : Nat × Lru K V :=
  let c' := c.preventTickOverflow
  (c'.tick, { c' with tick := (c'.tick + 1) % u64Size })

/-- Go `c.remove(idx)`: swap slot `idx` with the last slot in all three
slices, truncate them by one, and fire the eviction callback with the removed
pair (returned here as the event). -/
def Lru.removeAt (c : Lru K V) (idx : Nat) : Lru K V × (K × V) :=
  let e := c.keys.length - 1
  let key := c.keys.getD idx default
  let val := c.vals.getD idx default
  ({ c with
     keys := (c.keys.set idx (c.keys.getD e default)).take e,
     vals := (c.vals.set idx (c.vals.getD e default)).take e,
     lastUse := (c.lastUse.set idx (c.lastUse.getD e 0)).take e },
   (key, val))

/-- Go `c.removeOldest()`: no-op on an empty cache; otherwise remove the slot
whose tick is `oldestTick`, and when no slot holds that tick, repair and
retry. The Go retry is a recursive call; after `repair` the oldest tick is
`0` and slot `0` holds it, so the recursion takes the found branch at the
first retry, which is unfolded here. The final fallback branch is
unreachable for any state whose `lastUse` is nonempty. -/
def Lru.removeOldest (c : Lru K V) : Lru K V × List (K × V) :=
  if c.keys.length = 0 then (c, [])
  else
    match c.find c.oldestTick with
    | some idx =>
      let r := c.removeAt idx
      (r.1, [r.2])
    | none =>
      let c' := c.repair
      match c'.find c'.oldestTick with
      | some idx =>
        let r := c'.removeAt idx
        (r.1, [r.2])
      | none => (c', [])

/-- Go `c.append(key, val)`: evict the oldest entry when the storage is full
(`len(c.keys) >= cap(c.keys)`), then append to `keys` and `vals`, and append
a fresh tick to `lastUse`. Since `c.nextTick()` is evaluated as the argument
of the third Go `append`, it runs after `keys`/`vals` are extended and before
`lastUse` is. -/
def Lru.append (c : Lru K V) (key : K) (val : V) : Lru K V × List (K × V) :=
  let r := if c.keys.length ≥ c.capacity then c.removeOldest else (c, [])
  let c1 := { r.1 with keys := r.1.keys ++ [key], vals := r.1.vals ++ [val] }
  let n := c1.nextTick
  ({ n.2 with lastUse := n.2.lastUse ++ [n.1] }, r.2)

/-- Go `c.Has(key)`: linear scan of `c.keys`; no state is touched. -/
def Lru.Has (c : Lru K V) (key : K) : Bool :=
  c.keys.any (fun x => decide (x = key))

/-- Go `c.Get(key)`: on a hit at slot `i`, stamp `c.lastUse[i]` with a fresh
tick (issued after `nextTick`'s possible repair) and return the value; a miss
returns nothing and leaves the state untouched. -/
def Lru.Get (c : Lru K V) (key : K) : Option V × Lru K V :=
  match idxOf? key c.keys with
  | some i =>
    let n := c.nextTick
    (some (c.vals.getD i default), { n.2 with lastUse := n.2.lastUse.set i n.1 })
  | none => (none, c)

/-- Go `c.GetOrSet(key, setter)`: on a hit behave as `Get`; on a miss call
the setter and, only when it reports no error, append the produced value.
The value returned to the caller is always the setter's value, error or not. -/
def Lru.GetOrSet (c : Lru K V) (key : K) (setter : K → V × Option E) :
    (V × Option E) × Lru K V × List (K × V) :=
  match c.Get key with
  | (some v, c') => ((v, none), c', [])
  | (none, c') =>
    let r := setter key
    match r.2 with
    | some e => ((r.1, some e), c', [])
    | none =>
      let a := c'.append key r.1
      ((r.1, none), a.1, a.2)

/-- Go `c.Set(key, val)`: insert only when the key is absent. -/
def Lru.Set (c : Lru K V) (key : K) (val : V) : Bool × Lru K V × List (K × V) :=
  if c.Has key then (false, c, [])
  else
    let a := c.append key val
    (true, a.1, a.2)

/-- Go `c.Replace(key, val)`: on a hit swap in the new value, stamp a fresh
tick, and fire the eviction callback with the displaced old value; on a miss
append. -/
def Lru.Replace (c : Lru K V) (key : K) (val : V) : Bool × Lru K V × List (K × V) :=
  match idxOf? key c.keys with
  | some i =>
    let old := c.vals.getD i default
    let n := Lru.nextTick { c with vals := c.vals.set i val }
    (true, { n.2 with lastUse := n.2.lastUse.set i n.1 }, [(key, old)])
  | none =>
    let a := c.append key val
    (false, a.1, a.2)

/-- Go `c.Remove(key)`: swap-remove the slot holding the key, firing the
eviction callback for it. -/
def Lru.Remove (c : Lru K V) (key : K) : Bool × Lru K V × List (K × V) :=
  match idxOf? key c.keys with
  | some i =>
    let r := c.removeAt i
    (true, r.1, [r.2])
  | none => (false, c, [])

/-- Go `c.Reset()`: truncate all three slices and zero the clock; no
callback fires. The backing capacity is untouched. -/
def Lru.Reset (c : Lru K V) : Lru K V :=
  { c with keys := [], vals := [], lastUse := [], tick := 0 }

/-- Go `c.RemoveAll()`: fire the eviction callback for every live entry in
storage order, then `Reset`. -/
def Lru.RemoveAll (c : Lru K V) : Lru K V × List (K × V) :=
  (c.Reset, c.keys.zip c.vals)

/-- The shrinking loop of Go `c.Resize`: `for capacity < c.Len() {
c.removeOldest() }`. Fueled by the entry count at the call site, which
bounds the number of iterations since each `removeOldest` on a nonempty
cache removes one slot. -/
def Lru.shrinkTo (capacity : Nat) : Nat → Lru K V → Lru K V × List (K × V)
  | 0, c => (c, [])
  | Nat.succ n, c =>
    if capacity < c.keys.length then
      let r := c.removeOldest
      let r2 := shrinkTo capacity n r.1
      (r2.1, r.2 ++ r2.2)
    else (c, [])

/-- Go `c.Resize(capacity)`: no-op when the backing capacity already matches;
otherwise evict oldest entries until the occupancy fits, copy the three
slices into new backing arrays of the requested capacity, `Reset`, and
reassign the copied slices. The reassignment restores `keys`/`vals`/`lastUse`
but not `tick`, which `Reset` left at `0`. -/
def Lru.Resize (c : Lru K V) (capacity : Nat) : Lru K V × List (K × V) :=
  if c.capacity = capacity then (c, [])
  else
    let r := Lru.shrinkTo capacity c.keys.length c
    let c2 := r.1.Reset
    ({ c2 with
       keys := r.1.keys, vals := r.1.vals, lastUse := r.1.lastUse,
       capacity := capacity }, r.2)

/-- Go `c.Iterate()`: all pairs in storage order (full traversal of the
returned sequence). -/
def Lru.Iterate (c : Lru K V) : List (K × V) := c.keys.zip c.vals

/-- The loop body of Go `c.IterateAsc()`: starting from tick `t`, repeat at
most `n` times (`for range c.keys`): look up the slot holding `t`; stop at
the first tick with no slot, otherwise yield that slot's pair and move to the
next tick (wrapping `uint64` increment). -/
def Lru.iterAscFrom (c : Lru K V) : Nat → Nat → List (K × V)
  | _, 0 => []
  | t, Nat.succ n =>
    match c.find t with
    | some idx =>
      (c.keys.getD idx default, c.vals.getD idx default) ::
        c.iterAscFrom ((t + 1) % u64Size) n
    | none => []

/-- Go `c.IterateAsc()`: walk ticks upward from `oldestTick` (full traversal
of the returned sequence). -/
def Lru.IterateAsc (c : Lru K V) : List (K × V) :=
  c.iterAscFrom c.oldestTick c.keys.length

/-- The loop body of Go `c.IterateDesc()`: like `iterAscFrom` but the tick
moves downward (wrapping `uint64` decrement). -/
def Lru.iterDescFrom (c : Lru K V) : Nat → Nat → List (K × V)
  | _, 0 => []
  | t, Nat.succ n =>
    match c.find t with
    | some idx =>
      (c.keys.getD idx default, c.vals.getD idx default) ::
        c.iterDescFrom ((t + u64Size - 1) % u64Size) n
    | none => []

/-- Go `c.IterateDesc()`: walk ticks downward from `c.tick - 1` (full
traversal of the returned sequence). -/
def Lru.IterateDesc (c : Lru K V) : List (K × V) :=
  c.iterDescFrom ((c.tick + u64Size - 1) % u64Size) c.keys.length

/-- The spec's invariant "every `recency[i] < clock`". -/
def Lru.recencyInvariant (c : Lru K V) : Bool :=
  c.lastUse.all (fun x => decide (x < c.tick))

/-- Operations of the sequences quantified over by the capacity-bound claim:
`Set`, `Replace`, and `GetOrSet`. A `GetOrSet` op carries the pair the
caller-supplied producer would return (the producer is invoked at most once
per call, so a fixed result is fully general). -/
inductive Op (K V E : Type) where
  | set (key : K) (val : V)
  | replace (key : K) (val : V)
  | getOrSet (key : K) (res : V × Option E)

/-- Apply one public operation, keeping the state and its eviction events. -/
def stepOp (c : Lru K V) : Op K V E → Lru K V × List (K × V)
  | Op.set k v =>
    let r := c.Set k v
    (r.2.1, r.2.2)
  | Op.replace k v =>
    let r := c.Replace k v
    (r.2.1, r.2.2)
  | Op.getOrSet k res =>
    let r := c.GetOrSet k (fun _ => res)
    (r.2.1, r.2.2)

/-- Run a sequence of public operations, accumulating eviction events in
callback order. -/
def runOps (c : Lru K V) : List (Op K V E) → Lru K V × List (K × V)
  | [] => (c, [])
  | o :: os =>
    let r := stepOp c o
    let r2 := runOps r.1 os
    (r2.1, r.2 ++ r2.2)


/-! ### Concrete traces

States reached from freshly constructed caches by public operations only,
used to evaluate the specification's example-based claims. Values are ten
times their key throughout. -/

/-- Capacity 3: insert keys 1..4 (evicting key 1), then `Replace` the
existing key 4. The replace refreshes the newest slot, leaving the recency
window broken: `lastUse = [2, 1, 4]` with clock 5. -/
def c1Base : Lru Nat Nat :=
  (runOps (E := Unit) (Lru.New Nat Nat 3)
    [Op.set 1 10, Op.set 2 20, Op.set 3 30, Op.set 4 40, Op.replace 4 41]).1

/-- Capacity 2: `Set 1`, `Set 2`, then `Get 2` (a hit on the newest entry,
which breaks the recency window: `lastUse = [0, 2]`, clock 3). -/
def c2Base : Lru Nat Nat :=
  ((((Lru.New Nat Nat 2).Set 1 10).2.1.Set 2 20).2.1.Get 2).2

/-- The spec's end-to-end example: capacity 8, `Replace` keys 1..10 in
order; final state paired with the eviction events in callback order. -/
def c3Run : Lru Nat Unit × List (Nat × Unit) :=
  runOps (E := Unit) (Lru.New Nat Unit 8)
    [Op.replace 1 (), Op.replace 2 (), Op.replace 3 (), Op.replace 4 (),
     Op.replace 5 (), Op.replace 6 (), Op.replace 7 (), Op.replace 8 (),
     Op.replace 9 (), Op.replace 10 ()]

/-- Capacity 5 holding keys 1..5 inserted in order (key 1 oldest). -/
def c4Base : Lru Nat Nat :=
  (runOps (E := Unit) (Lru.New Nat Nat 5)
    [Op.set 1 10, Op.set 2 20, Op.set 3 30, Op.set 4 40, Op.set 5 50]).1

/-- Capacity 1 holding key 1; clock is 1. -/
def c5Base : Lru Nat Nat := ((Lru.New Nat Nat 1).Set 1 10).2.1

/-- Capacity 2 holding keys 1, 2, then grown with `Resize 3` (occupancy
fits, so nothing is evicted). -/
def c6Base : Lru Nat Nat :=
  ((((Lru.New Nat Nat 2).Set 1 10).2.1.Set 2 20).2.1.Resize 3).1

/-- Capacity 2 holding key 1 (older) then key 2 (newer). -/
def c7Base : Lru Nat Nat := (((Lru.New Nat Nat 2).Set 1 10).2.1.Set 2 20).2.1

/-- Capacity 2 holding only key 1; key 5 is absent. -/
def c8MissState : Lru Nat Nat := ((Lru.New Nat Nat 2).Set 1 10).2.1

/-- Capacity 4 after `Set` 1..6 (evicting keys 1 and 2 and scrambling
storage order to `[4, 5, 3, 6]` with ticks `[3, 4, 2, 5]`), then `Remove 4`
(a non-oldest key, breaking the recency window) and `Set 7`. The resulting
state `[6, 5, 3, 7]` with ticks `[5, 4, 2, 6]` and clock 7 has no slot at
tick `7 - 4 = 3`, so the next eviction triggers a repair. -/
def c10Ready : Lru Nat Nat :=
  ((((runOps (E := Unit) (Lru.New Nat Nat 4)
    [Op.set 1 10, Op.set 2 20, Op.set 3 30, Op.set 4 40, Op.set 5 50,
     Op.set 6 60]).1.Remove 4).2.1).Set 7 70).2.1

/-! ### Preservation lemmas

Field-preservation facts about the internal operations, used by the
capacity-bound induction. -/

/-- The slices of a cache are aligned when `lastUse` has as many slots as
`keys`; every reachable state satisfies this. -/
def Lru.Aligned (c : Lru K V) : Prop := c.lastUse.length = c.keys.length

theorem Lru.repair_keys (c : Lru K V) : c.repair.keys = c.keys := rfl

theorem Lru.repair_capacity (c : Lru K V) : c.repair.capacity = c.capacity := rfl

theorem Lru.repair_lastUse_length (c : Lru K V) :
    c.repair.lastUse.length = c.lastUse.length := by
  simp [Lru.repair]

theorem Lru.preventTickOverflow_keys (c : Lru K V) :
    c.preventTickOverflow.keys = c.keys := by
  unfold Lru.preventTickOverflow
  split
  · rfl
  · dsimp only
    split
    · rfl
    · rfl

theorem Lru.preventTickOverflow_capacity (c : Lru K V) :
    c.preventTickOverflow.capacity = c.capacity := by
  unfold Lru.preventTickOverflow
  split
  · rfl
  · dsimp only
    split
    · rfl
    · rfl

theorem Lru.preventTickOverflow_lastUse_length (c : Lru K V) :
    c.preventTickOverflow.lastUse.length = c.lastUse.length := by
  unfold Lru.preventTickOverflow
  split
  · rfl
  · dsimp only
    split
    · exact c.repair_lastUse_length
    · simp

theorem Lru.nextTick_keys (c : Lru K V) : c.nextTick.2.keys = c.keys :=
  c.preventTickOverflow_keys

theorem Lru.nextTick_capacity (c : Lru K V) : c.nextTick.2.capacity = c.capacity :=
  c.preventTickOverflow_capacity

theorem Lru.nextTick_lastUse_length (c : Lru K V) :
    c.nextTick.2.lastUse.length = c.lastUse.length :=
  c.preventTickOverflow_lastUse_length

theorem Lru.removeAt_keys_length (c : Lru K V) (i : Nat) :
    (c.removeAt i).1.keys.length = c.keys.length - 1 := by
  simp [Lru.removeAt]

theorem Lru.removeAt_lastUse_length (c : Lru K V) (i : Nat) :
    (c.removeAt i).1.lastUse.length = min (c.keys.length - 1) c.lastUse.length := by
  simp [Lru.removeAt]

theorem Lru.removeAt_capacity (c : Lru K V) (i : Nat) :
    (c.removeAt i).1.capacity = c.capacity := rfl

theorem Lru.oldestTick_repair (c : Lru K V) : c.repair.oldestTick = 0 := by
  unfold Lru.oldestTick Lru.repair
  have h : c.keys.length % u64Size + u64Size - c.keys.length % u64Size = u64Size := by
    omega
  simp [h]

theorem findIn_zero_mapRange (n : Nat) (h : 0 < n) :
    findIn 0 ((List.range n).map (fun i => i % u64Size)) = some 0 := by
  cases n with
  | zero => omega
  | succ m =>
    rw [List.range_succ_eq_map]
    simp [findIn]

theorem Lru.removeOldest_spec (c : Lru K V) (hal : c.Aligned)
    (h : 0 < c.keys.length) :
    (c.removeOldest.1.keys.length = c.keys.length - 1) ∧
    (c.removeOldest.1.lastUse.length = c.keys.length - 1) ∧
    (c.removeOldest.2.length = 1) ∧
    (c.removeOldest.1.capacity = c.capacity) := by
  unfold Lru.removeOldest
  rw [if_neg (show ¬c.keys.length = 0 by omega)]
  cases hfind : c.find c.oldestTick with
  | some idx =>
    simp only [hfind]
    refine ⟨c.removeAt_keys_length idx, ?_, rfl, c.removeAt_capacity idx⟩
    rw [c.removeAt_lastUse_length idx, hal]
    omega
  | none =>
    have h0 : c.repair.find c.repair.oldestTick = some 0 := by
      rw [Lru.oldestTick_repair]
      unfold Lru.find Lru.repair
      have hal' : c.lastUse.length = c.keys.length := hal
      exact findIn_zero_mapRange c.lastUse.length (by omega)
    simp only [hfind, h0]
    refine ⟨?_, ?_, rfl, ?_⟩
    · rw [c.repair.removeAt_keys_length 0, c.repair_keys]
    · rw [c.repair.removeAt_lastUse_length 0, c.repair_keys,
        c.repair_lastUse_length, hal]
      omega
    · rw [c.repair.removeAt_capacity 0, c.repair_capacity]


theorem Lru.append_parts (c : Lru K V) (k : K) (v : V) :
    (c.append k v).1.keys =
      (if c.keys.length ≥ c.capacity then c.removeOldest else (c, [])).1.keys ++ [k] ∧
    (c.append k v).1.lastUse.length =
      (if c.keys.length ≥ c.capacity then c.removeOldest else (c, [])).1.lastUse.length + 1 ∧
    (c.append k v).1.capacity =
      (if c.keys.length ≥ c.capacity then c.removeOldest else (c, [])).1.capacity ∧
    (c.append k v).2 =
      (if c.keys.length ≥ c.capacity then c.removeOldest else (c, [])).2 := by
  unfold Lru.append
  refine ⟨?_, ?_, ?_, rfl⟩
  · show (Lru.nextTick _).2.keys = _
    rw [Lru.nextTick_keys]
  · show ((Lru.nextTick _).2.lastUse ++ [_]).length = _
    rw [List.length_append, Lru.nextTick_lastUse_length]
    rfl
  · show (Lru.nextTick _).2.capacity = _
    rw [Lru.nextTick_capacity]

theorem Lru.append_spec (c : Lru K V) (k : K) (v : V) (hal : c.Aligned)
    (hcap : 1 ≤ c.capacity) (hle : c.keys.length ≤ c.capacity) :
    ((c.append k v).1.Aligned) ∧
    ((c.append k v).1.keys.length ≤ c.capacity) ∧
    ((c.append k v).1.capacity = c.capacity) ∧
    (c.keys.length = c.capacity →
      (c.append k v).2.length = 1 ∧ (c.append k v).1.keys.length = c.capacity) := by
  obtain ⟨hk, hu, hc, he⟩ := c.append_parts k v
  by_cases hfull : c.keys.length ≥ c.capacity
  · have hlen : c.keys.length = c.capacity := le_antisymm hle hfull
    obtain ⟨r1, r2, r3, r4⟩ := c.removeOldest_spec hal (by omega)
    rw [if_pos hfull] at hk hu hc he
    refine ⟨?_, ?_, ?_, fun _ => ⟨?_, ?_⟩⟩
    · show (c.append k v).1.lastUse.length = (c.append k v).1.keys.length
      rw [hu, hk, List.length_append, r1, r2]
      rfl
    · rw [hk, List.length_append, r1]
      simp
      omega
    · rw [hc, r4]
    · rw [he, r3]
    · rw [hk, List.length_append, r1]
      simp
      omega
  · have hlt : c.keys.length < c.capacity := by omega
    rw [if_neg hfull] at hk hu hc he
    refine ⟨?_, ?_, ?_, fun hcvi => absurd hcvi (by omega)⟩
    · show (c.append k v).1.lastUse.length = (c.append k v).1.keys.length
      rw [hu, hk, List.length_append, hal]
      rfl
    · rw [hk, List.length_append]
      simp
      omega
    · rw [hc]

theorem idxOf?_eq_none (key : K) (l : List K)
    (h : l.any (fun x => decide (x = key)) = false) : idxOf? key l = none := by
  induction l with
  | nil => rfl
  | cons a xs ih =>
    simp only [List.any_cons, Bool.or_eq_false_iff] at h
    unfold idxOf?
    rw [if_neg (by simpa using h.1), ih h.2]
    rfl

theorem Lru.Get_state (c : Lru K V) (key : K) :
    (c.Get key).2.keys = c.keys ∧
    (c.Get key).2.lastUse.length = c.lastUse.length ∧
    (c.Get key).2.capacity = c.capacity := by
  unfold Lru.Get
  cases hidx : idxOf? key c.keys with
  | some i =>
    simp only [hidx]
    refine ⟨c.nextTick_keys, ?_, c.nextTick_capacity⟩
    show ((Lru.nextTick c).2.lastUse.set i _).length = _
    rw [List.length_set, Lru.nextTick_lastUse_length]
  | none =>
    simp only [hidx]
    exact ⟨trivial, trivial, trivial⟩

theorem stepOp_spec (c : Lru K V) (o : Op K V E) (hal : c.Aligned)
    (hcap : 1 ≤ c.capacity) (hle : c.keys.length ≤ c.capacity) :
    (stepOp c o).1.Aligned ∧ (stepOp c o).1.keys.length ≤ c.capacity ∧
    (stepOp c o).1.capacity = c.capacity := by
  cases o with
  | set k v =>
    show (c.Set k v).2.1.Aligned ∧ (c.Set k v).2.1.keys.length ≤ c.capacity ∧
      (c.Set k v).2.1.capacity = c.capacity
    unfold Lru.Set
    by_cases hh : c.Has k = true
    · rw [if_pos hh]
      exact ⟨hal, hle, rfl⟩
    · rw [if_neg hh]
      obtain ⟨a1, a2, a3, _⟩ := c.append_spec k v hal hcap hle
      exact ⟨a1, a2, a3⟩
  | replace k v =>
    show (c.Replace k v).2.1.Aligned ∧ (c.Replace k v).2.1.keys.length ≤ c.capacity ∧
      (c.Replace k v).2.1.capacity = c.capacity
    unfold Lru.Replace
    cases hidx : idxOf? k c.keys with
    | some i =>
      simp only [hidx]
      refine ⟨?_, ?_, ?_⟩
      · show ((Lru.nextTick _).2.lastUse.set i _).length = (Lru.nextTick _).2.keys.length
        rw [List.length_set, Lru.nextTick_lastUse_length, Lru.nextTick_keys]
        exact hal
      · show (Lru.nextTick _).2.keys.length ≤ c.capacity
        rw [Lru.nextTick_keys]
        exact hle
      · show (Lru.nextTick _).2.capacity = c.capacity
        rw [Lru.nextTick_capacity]
    | none =>
      simp only [hidx]
      obtain ⟨a1, a2, a3, _⟩ := c.append_spec k v hal hcap hle
      exact ⟨a1, a2, a3⟩
  | getOrSet k res =>
    show (c.GetOrSet k fun _ => res).2.1.Aligned ∧
      (c.GetOrSet k fun _ => res).2.1.keys.length ≤ c.capacity ∧
      (c.GetOrSet k fun _ => res).2.1.capacity = c.capacity
    unfold Lru.GetOrSet
    have hg := c.Get_state k
    rcases hget : c.Get k with ⟨ov, c'⟩
    rw [hget] at hg
    obtain ⟨g1, g2, g3⟩ := hg
    have hal' : c'.Aligned := by
      show c'.lastUse.length = c'.keys.length
      rw [g1, g2]
      exact hal
    cases ov with
    | some v0 =>
      simp only [hget]
      refine ⟨hal', ?_, g3⟩
      rw [g1]
      exact hle
    | none =>
      simp only [hget]
      rcases res with ⟨v0, err⟩
      cases err with
      | some e =>
        simp only
        refine ⟨hal', ?_, g3⟩
        rw [g1]
        exact hle
      | none =>
        simp only
        obtain ⟨a1, a2, a3, _⟩ := c'.append_spec k v0 hal'
          (by rw [g3]; exact hcap) (by rw [g1, g3]; exact hle)
        refine ⟨a1, ?_, ?_⟩
        · rw [g3] at a2
          exact a2
        · rw [a3, g3]

theorem runOps_spec (ops : List (Op K V E)) (c : Lru K V) (hal : c.Aligned)
    (hcap : 1 ≤ c.capacity) (hle : c.keys.length ≤ c.capacity) :
    (runOps c ops).1.Aligned ∧ (runOps c ops).1.keys.length ≤ c.capacity ∧
    (runOps c ops).1.capacity = c.capacity := by
  induction ops generalizing c with
  | nil => exact ⟨hal, hle, rfl⟩
  | cons o os ih =>
    obtain ⟨h1, h2, h3⟩ := stepOp_spec c o hal hcap hle
    obtain ⟨g1, g2, g3⟩ := ih (stepOp c o).1 h1 (by rw [h3]; exact hcap)
      (by rw [h3]; exact h2)
    refine ⟨g1, ?_, ?_⟩
    · show (runOps (stepOp c o).1 os).1.keys.length ≤ c.capacity
      omega
    · show (runOps (stepOp c o).1 os).1.capacity = c.capacity
      rw [g3, h3]

theorem Lru.insert_at_capacity (c : Lru K V) (k : K) (v : V) (hal : c.Aligned)
    (hcap : 1 ≤ c.capacity) (hlen : c.keys.length = c.capacity)
    (hmiss : c.Has k = false) :
    ((c.Set k v).2.2.length = 1 ∧ (c.Set k v).2.1.keys.length = c.capacity) ∧
    ((c.Replace k v).2.2.length = 1 ∧
      (c.Replace k v).2.1.keys.length = c.capacity) ∧
    ((c.GetOrSet k (fun _ => (v, (none : Option E)))).2.2.length = 1 ∧
      (c.GetOrSet k (fun _ => (v, (none : Option E)))).2.1.keys.length =
        c.capacity) := by
  have hidx : idxOf? k c.keys = none := idxOf?_eq_none k c.keys hmiss
  obtain ⟨_, _, _, a4⟩ := c.append_spec k v hal hcap (le_of_eq hlen)
  obtain ⟨e1, e2⟩ := a4 hlen
  refine ⟨?_, ?_, ?_⟩
  · unfold Lru.Set
    rw [if_neg (by rw [hmiss]; exact Bool.false_ne_true)]
    exact ⟨e1, e2⟩
  · unfold Lru.Replace
    simp only [hidx]
    exact ⟨e1, e2⟩
  · have hget : c.Get k = (none, c) := by
      unfold Lru.Get
      rw [hidx]
    unfold Lru.GetOrSet
    simp only [hget]
    exact ⟨e1, e2⟩

/-! ### The claims -/

/-- Claim C1, amended. For every cache created with positive capacity `cap`
and every sequence of `Set`, `Replace`, and `GetOrSet` operations,
`Len() <= cap` holds after each operation, and when the cache holds exactly
`cap` entries, the next successful insertion (by `Set`, `Replace`, or
`GetOrSet` on an absent key) removes exactly one entry — the slot found at
the tick `clock - Len()`, after an on-demand repair when no slot holds that
tick — before inserting the new one, leaving `Len()` at `cap`. (The original
claim's stronger "namely the live entry whose recency tick is smallest" is
refuted by `spec_c1_counterexample`.) -/
theorem spec_c1_capacity_bound (cap : Nat) (hcap : 1 ≤ cap)
    (ops : List (Op K V E)) (k : K) (v : V) :
    (runOps (Lru.New K V cap) ops).1.Len ≤ cap ∧
    ((runOps (Lru.New K V cap) ops).1.Len = cap →
      (runOps (Lru.New K V cap) ops).1.Has k = false →
      ((runOps (Lru.New K V cap) ops).1.Set k v).2.2.length = 1 ∧
      ((runOps (Lru.New K V cap) ops).1.Set k v).2.1.Len = cap ∧
      ((runOps (Lru.New K V cap) ops).1.Replace k v).2.2.length = 1 ∧
      ((runOps (Lru.New K V cap) ops).1.Replace k v).2.1.Len = cap ∧
      ((runOps (Lru.New K V cap) ops).1.GetOrSet k
          (fun _ => (v, (none : Option E)))).2.2.length = 1 ∧
      ((runOps (Lru.New K V cap) ops).1.GetOrSet k
          (fun _ => (v, (none : Option E)))).2.1.Len = cap) := by
  obtain ⟨h1, h2, h3⟩ := runOps_spec ops (Lru.New K V cap) rfl hcap (Nat.zero_le cap)
  refine ⟨h2, fun hlen hmiss => ?_⟩
  obtain ⟨⟨s1, s2⟩, ⟨r1, r2⟩, ⟨g1, g2⟩⟩ :=
    (runOps (Lru.New K V cap) ops).1.insert_at_capacity k v h1
      (by rw [h3]; exact hcap)
      (by show (runOps (Lru.New K V cap) ops).1.Len = _; rw [hlen, h3]; rfl)
      hmiss
  rw [h3] at s2 r2 g2
  exact ⟨s1, s2, r1, r2, g1, g2⟩

/-- Claim C1 witness: capacity 1, one insertion; the cache is at capacity
with key 1 absent, and each of the three insertion paths evicts exactly one
entry and leaves the length at capacity. -/
theorem spec_c1_capacity_bound_witness :
    1 ≤ 1 ∧
    ((runOps (Lru.New Nat Nat 1) ([Op.set 0 0] : List (Op Nat Nat Unit))).1.Len ≤ 1 ∧
     ((runOps (Lru.New Nat Nat 1) ([Op.set 0 0] : List (Op Nat Nat Unit))).1.Len = 1 →
      (runOps (Lru.New Nat Nat 1) ([Op.set 0 0] : List (Op Nat Nat Unit))).1.Has 1 = false →
      ((runOps (Lru.New Nat Nat 1) ([Op.set 0 0] : List (Op Nat Nat Unit))).1.Set 1 5).2.2.length = 1 ∧
      ((runOps (Lru.New Nat Nat 1) ([Op.set 0 0] : List (Op Nat Nat Unit))).1.Set 1 5).2.1.Len = 1 ∧
      ((runOps (Lru.New Nat Nat 1) ([Op.set 0 0] : List (Op Nat Nat Unit))).1.Replace 1 5).2.2.length = 1 ∧
      ((runOps (Lru.New Nat Nat 1) ([Op.set 0 0] : List (Op Nat Nat Unit))).1.Replace 1 5).2.1.Len = 1 ∧
      ((runOps (Lru.New Nat Nat 1) ([Op.set 0 0] : List (Op Nat Nat Unit))).1.GetOrSet 1
          (fun _ => (5, (none : Option Unit)))).2.2.length = 1 ∧
      ((runOps (Lru.New Nat Nat 1) ([Op.set 0 0] : List (Op Nat Nat Unit))).1.GetOrSet 1
          (fun _ => (5, (none : Option Unit)))).2.1.Len = 1)) :=
  ⟨Nat.le_refl 1, spec_c1_capacity_bound 1 (Nat.le_refl 1) [Op.set 0 0] 1 5⟩

/-- Claim C1 counterexample. After `Set 1`, `Set 2`, `Set 3`, `Set 4`,
`Replace 4` on a capacity-3 cache, the live entries are keys `[3, 2, 4]`
with recency ticks `[2, 1, 4]`: key 2 holds the smallest tick. The cache is
at capacity, yet inserting key 5 evicts key 3 (tick 2) and key 2 survives —
so the next insertion does not remove the live entry whose recency tick is
smallest, refuting the claim as stated. -/
theorem spec_c1_counterexample :
    c1Base.Len = 3 ∧ c1Base.capacity = 3 ∧
    c1Base.keys = [3, 2, 4] ∧ c1Base.lastUse = [2, 1, 4] ∧
    (c1Base.Set 5 50).2.2 = [(3, 30)] ∧
    (c1Base.Set 5 50).2.1.Has 2 = true := by decide

/-- Claim C2 is false on the code. With no `Remove` and no `Resize` — only
`Set 1`, `Set 2`, `Get 2` on a capacity-2 cache — both keys are live, their
most recent touches happened in the order 1 then 2, yet `IterateAsc()`
yields nothing (the window base tick 1 is held by no slot, so the walk stops
immediately) and `IterateDesc()` yields only key 2: neither the claimed
touch order `[1, 2]` nor its reverse. This also contradicts the source's own
doc comment "Iterate all items in ascending order.". -/
theorem spec_c2_iterate_gap :
    c2Base.keys = [1, 2] ∧ c2Base.Len = 2 ∧
    c2Base.IterateAsc = [] ∧ c2Base.IterateDesc = [(2, 20)] := by decide

/-- Claim C3. Capacity 8, `Replace` keys 1..10 in order: the eviction
callback fires exactly for keys 1 and 2 in that order, `Len()` is 8, and
`IterateAsc()` yields exactly keys 3..10 in order. -/
theorem spec_c3_example :
    c3Run.2 = [(1, ()), (2, ())] ∧ c3Run.1.Len = 8 ∧
    c3Run.1.IterateAsc =
      [(3, ()), (4, ()), (5, ()), (6, ()), (7, ()), (8, ()), (9, ()),
       (10, ())] := by decide

/-- Claim C4 fails on the code. On a capacity-5 cache holding keys 1..5,
`Resize(3)` does evict keys 1 and 2 in that order and keeps keys 3, 4, 5,
but the `Reset` inside `Resize` zeroes the clock and the reassignment never
restores it: the resulting state has `tick = 0` with recency ticks
`[4, 3, 2]`, so `IterateAsc()` (which starts at tick `0 - 3` wrapped, an
astronomically large value held by no slot) yields nothing instead of the
claimed keys 3, 4, 5. -/
theorem spec_c4_resize_shrink :
    (c4Base.Resize 3).2 = [(1, 10), (2, 20)] ∧
    (c4Base.Resize 3).1.keys = [5, 4, 3] ∧
    (c4Base.Resize 3).1.lastUse = [4, 3, 2] ∧
    (c4Base.Resize 3).1.tick = 0 ∧
    (c4Base.Resize 3).1.IterateAsc = [] := by decide

/-- Claim C5 fails on the code. Growing a capacity-1 cache holding one entry
(clock 1) to capacity 2 — the new capacity exceeds the occupancy, so nothing
is evicted — preserves the entry's recency tick but sets the clock to 0
instead of leaving it at 1: `Resize` calls `Reset` (which zeroes `tick`) and
restores only the three slices afterwards. -/
theorem spec_c5_resize_clock :
    c5Base.tick = 1 ∧ c5Base.Len = 1 ∧
    (c5Base.Resize 2).1.lastUse = c5Base.lastUse ∧
    (c5Base.Resize 2).1.tick = 0 := by decide

/-- Claim C6 fails on the code. The state reached from a fresh capacity-2
cache by the public operations `Set 1`, `Set 2`, `Resize 3` has two live
slots with recency ticks `[0, 1]` but clock 0 (zeroed by the `Reset` inside
`Resize`), so the invariant "every live slot's recency tick is strictly less
than the clock" is violated in a reachable state. -/
theorem spec_c6_recency_invariant :
    c6Base.Len = 2 ∧ c6Base.lastUse = [0, 1] ∧ c6Base.tick = 0 ∧
    c6Base.recencyInvariant = false := by decide

/-- Claim C7. `Has` is embedded as a pure predicate because the Go code only
reads `c.keys`; on the capacity-2 cache holding key 1 (older) then key 2
(newer): `Has 1` answers true and inserting key 3 into the same state evicts
key 1, whereas after `Get 1` (which returns the value and stamps a fresh
tick) inserting key 3 evicts key 2 instead. -/
theorem spec_c7_has_get :
    c7Base.Has 1 = true ∧
    (c7Base.Set 3 30).2.2 = [(1, 10)] ∧
    (c7Base.Get 1).1 = some 10 ∧
    ((c7Base.Get 1).2.Set 3 30).2.2 = [(2, 20)] := by decide

/-- Claim C8, amended. When the key is absent and the producer reports an
error, `GetOrSet` returns the pair the producer returned — its value
component alongside that same error, not necessarily the zero value — and
the cache state is exactly as before the call: no insertion, no eviction,
no retry. -/
theorem spec_c8_producer_error (c : Lru K V) (key : K)
    (setter : K → V × Option E) (v : V) (e : E)
    (hmiss : c.Has key = false) (hset : setter key = (v, some e)) :
    c.GetOrSet key setter = ((v, some e), c, []) := by
  have hidx : idxOf? key c.keys = none := idxOf?_eq_none key c.keys hmiss
  have hget : c.Get key = (none, c) := by
    unfold Lru.Get
    rw [hidx]
  unfold Lru.GetOrSet
  simp only [hget, hset]

/-- Claim C8 witness: on the capacity-2 cache holding only key 1, a
`GetOrSet` of the absent key 5 whose producer returns value 42 with an error
yields exactly that pair and leaves the state untouched. -/
theorem spec_c8_producer_error_witness :
    c8MissState.Has 5 = false ∧
    c8MissState.GetOrSet 5 (fun _ => ((42 : Nat), some ())) =
      ((42, some ()), c8MissState, []) :=
  ⟨by decide,
   spec_c8_producer_error c8MissState 5 (fun _ => (42, some ())) 42 ()
     (by decide) rfl⟩

/-- Claim C8 counterexample. On an empty capacity-1 cache, `GetOrSet 5` with
a producer that fails while returning value 7 propagates `(7, error)` to the
caller: the returned value is the producer's 7, not the zero value 0 claimed
by the spec (the state is nevertheless unchanged and nothing is inserted). -/
theorem spec_c8_counterexample :
    (Lru.New Nat Nat 1).GetOrSet 5 (fun _ => ((7 : Nat), some ())) =
      ((7, some ()), Lru.New Nat Nat 1, []) ∧ (7 : Nat) ≠ 0 := by decide

/-- Claim C10. First conjunct: `repair` assigns the fresh ticks in storage
order — slot `i` receives tick `i` (`uint64(i)`) regardless of the previous
tick ordering, and the clock becomes the entry count. Concretely: `c10Ready`
(reached via a `Remove` of the non-oldest key 4 followed by an insertion)
holds keys `[6, 5, 3, 7]` with ticks `[5, 4, 2, 6]`, where key 3 (tick 2)
is the least recently touched; inserting key 8 finds no slot at tick 3,
repairs in storage order, and therefore evicts key 6 — the storage-order
victim, not the least recently touched — and the subsequent `IterateAsc()`
yields `5, 3, 7, 8`, which follows the repaired storage order and differs
from the most-recent-touch order `3, 5, 7, 8`. -/
theorem spec_c10_repair_storage_order :
    (∀ c : Lru Nat Nat,
      c.repair.lastUse =
        (List.range c.lastUse.length).map (fun i => i % u64Size) ∧
      c.repair.tick = c.keys.length % u64Size) ∧
    c10Ready.keys = [6, 5, 3, 7] ∧ c10Ready.lastUse = [5, 4, 2, 6] ∧
    c10Ready.tick = 7 ∧
    (c10Ready.Set 8 80).2.2 = [(6, 60)] ∧
    (c10Ready.Set 8 80).2.1.IterateAsc =
      [(5, 50), (3, 30), (7, 70), (8, 80)] ∧
    (c10Ready.Set 8 80).2.1.IterateAsc ≠
      [(3, 30), (5, 50), (7, 70), (8, 80)] :=
  ⟨fun c => ⟨rfl, rfl⟩, by decide⟩
